import Mathlib

set_option autoImplicit false
set_option maxRecDepth 100000

/-!
Shallow embedding of the chunkfs repository core:
the fixed-size chunker (src/src/chunkers/fixed_size.rs),
the file layer (src/src/file_layer.rs) and
the disk-backed chunk database (src/src/system/database.rs).
Machine integers (usize, u64) are modelled as Nat: none of the embedded
code paths can overflow for the inputs considered, and the source relies
on plain arithmetic (no wrapping operations).
-/

namespace ChunkFS

/-- Chunk descriptor: offset and length of a window into a data buffer
(struct Chunk in src/src/lib.rs). -/
structure Chunk where
  offset : Nat
  length : Nat
deriving DecidableEq

/-- Ceiling division, as u64::div_ceil in Rust (for a positive divisor). -/
def divCeil (a b : Nat) : Nat := (a + b - 1) / b

/-- Fuel-indexed embedding of the while-loop in FSChunker::chunk_data
(src/src/chunkers/fixed_size.rs lines 33-43).  The loop state is the
current offset and the chunk vector; the data buffer enters only through
its length.  The result is none when the fuel runs out before the loop
exits, so nontermination of the Rust loop shows up as: no fuel suffices. -/
def chunkLoopF : Nat → Nat → Nat → Nat → List Chunk → Option (List Chunk)
  | 0, _, _, _, _ => none
  | fuel + 1, chunk_size, dataLen, offset, chunks =>
    if offset < dataLen then
      chunkLoopF fuel chunk_size dataLen (offset + chunk_size)
        (chunks ++ [⟨offset, min chunk_size (dataLen - offset)⟩])
    else
      some chunks

/-- FSChunker::chunk_data (src/src/chunkers/fixed_size.rs): run the loop
with enough fuel (dataLen + 1 iterations always suffice when the
configured chunk size is positive). -/
def FSChunker.chunk_data (chunk_size dataLen : Nat) (empty : List Chunk) : List Chunk :=
  (chunkLoopF (dataLen + 1) chunk_size dataLen 0 empty).getD empty

/-- SEG_SIZE = 1 MiB (src/src/lib.rs line 40). -/
def SEG_SIZE : Nat := 1024 * 1024

/-- Hashed span starting at a byte offset within its file
(struct FileSpan in src/src/file_layer.rs).  Hashes are modelled as Nat. -/
structure FileSpan where
  hash : Nat
  offset : Nat
deriving DecidableEq

/-- Span produced by the write pipeline: a hash plus the length of the
chunk it names (struct Span used by FileLayer::write). -/
structure Span where
  hash : Nat
  length : Nat
deriving DecidableEq

/-- Opened-file cursor (struct FileHandle in src/src/file_layer.rs). -/
structure FileHandle where
  file_name : String
  offset : Nat
deriving DecidableEq

/-- Association-list lookup, modelling HashMap::get: the unordered map is
embedded as a list of pairs observed only through this lookup. -/
def lookupKV {K A : Type} [DecidableEq K] : List (K × A) → K → Option A
  | [], _ => none
  | p :: rest, key => if p.1 = key then some p.2 else lookupKV rest key

/-- Association-list insert modelling HashMap::insert: the previous
binding of the key, if any, is dropped. -/
def insertKV {K A : Type} [DecidableEq K] (key : K) (a : A) (m : List (K × A)) :
    List (K × A) :=
  (key, a) :: m.filter (fun p => decide (p.1 ≠ key))

/-- File layer state: the name-to-file map, with each file reduced to its
span vector (struct FileLayer / File in src/src/file_layer.rs). -/
abbrev FileLayer := List (String × List FileSpan)

/-- FileLayer::create (src/src/file_layer.rs lines 53-61): fail with
AlreadyExists when the name is taken, else insert an empty file and
return a handle at offset 0. -/
def FileLayer.create (fl : FileLayer) (name : String) :
    Except Nat (FileHandle × FileLayer) :=
  if (lookupKV fl name).isSome then .error 0
  else .ok (⟨name, 0⟩, insertKV name [] fl)

/-- Loop body of FileLayer::write (src/src/file_layer.rs lines 86-95):
push each span with the current handle offset, then advance the offset
by the span length.  State: the file span vector and the handle offset. -/
def writeSpansLoop : List FileSpan → Nat → List Span → List FileSpan × Nat
  | fspans, off, [] => (fspans, off)
  | fspans, off, s :: rest =>
    writeSpansLoop (fspans ++ [⟨s.hash, off⟩]) (off + s.length) rest

/-- FileLayer::write: find_file_mut unwraps, so a missing file is a
panic, modelled as none. -/
def FileLayer.write (fl : FileLayer) (h : FileHandle) (spans : List Span) :
    Option (FileLayer × FileHandle) :=
  match lookupKV fl h.file_name with
  | none => none
  | some fspans =>
    let res := writeSpansLoop fspans h.offset spans
    some (insertKV h.file_name res.1 fl, ⟨h.file_name, res.2⟩)

/-- A sequence of FileLayer::write calls through one handle. -/
def FileLayer.writeSeq (fl : FileLayer) (h : FileHandle) :
    List (List Span) → Option (FileLayer × FileHandle)
  | [] => some (fl, h)
  | batch :: rest =>
    match FileLayer.write fl h batch with
    | none => none
    | some (fl', h') => FileLayer.writeSeq fl' h' rest

/-- Embedding of the take_while closure in FileLayer::read
(src/src/file_layer.rs lines 102-112).  The closure mutates bytes_read
and last_offset even for the first span it rejects, so the rejecting
branch still returns the updated bytes_read. -/
def readLoop : List FileSpan → Nat → Nat → List Nat × Nat
  | [], _, bytes_read => ([], bytes_read)
  | s :: rest, last_offset, bytes_read =>
    let b := bytes_read + (s.offset - last_offset)
    if b < SEG_SIZE then
      let r := readLoop rest s.offset b
      (s.hash :: r.1, r.2)
    else ([], b)

/-- FileLayer::read (src/src/file_layer.rs lines 97-115): skip spans
before the handle offset, collect hashes with the take_while closure,
then advance the handle offset by the accumulated bytes_read. -/
def FileLayer.read (fl : FileLayer) (h : FileHandle) :
    Option (List Nat × FileHandle) :=
  match lookupKV fl h.file_name with
  | none => none
  | some fspans =>
    let rest := fspans.dropWhile (fun s => decide (s.offset < h.offset))
    let r := readLoop rest h.offset 0
    some (r.1, ⟨h.file_name, h.offset + r.2⟩)

/-- Sum of the lengths of a span batch. -/
def sumLens (l : List Span) : Nat := (l.map Span.length).sum

/-- The file spans that one FileLayer::write call appends for a given
span batch starting at a given handle offset. -/
def spansFrom (off : Nat) : List Span → List FileSpan
  | [] => []
  | s :: rest => ⟨s.hash, off⟩ :: spansFrom (off + s.length) rest

/-- Error kinds surfaced by the embedded database operations
(std::io::ErrorKind values used in src/src/system/database.rs). -/
inductive DbErr where
  | notFound
  | alreadyExists
  | outOfMemory
  | invalidData
  | ioError
deriving DecidableEq

/-- Location of one stored payload (struct DataInfo in
src/src/system/database.rs lines 120-124). -/
structure DataInfo where
  start_block : Nat
  data_length : Nat
deriving DecidableEq

/-- State of a DiskDatabase (src/src/system/database.rs lines 129-142).
The backing device is a byte-addressed store modelled as a function from
byte position to byte value. -/
structure DiskState (K V : Type) where
  device : Nat → Nat
  database_map : List (K × DataInfo)
  total_size : Nat
  block_size : Nat
  used_blocks : Nat

/-- Outcome of the seek-plus-write_all I/O performed inside
DiskDatabase::write.  The environment chooses it: ok means both syscalls
succeed, seekFail means the seek errors before any byte is written, and
writeFail n means write_all errors after n bytes reached the device. -/
inductive IOOutcome where
  | ok
  | seekFail
  | writeFail (written : Nat)
deriving DecidableEq

/-- DiskDatabase::padding_to_multiple_block_size
(src/src/system/database.rs lines 236-243). -/
def padding_to_multiple_block_size (block_size length : Nat) : Nat :=
  if length % block_size = 0 then 0
  else divCeil length block_size * block_size - length

/-- Overwrite a byte range of the device at a given offset, as the
seek-then-write_all pair does. -/
def writeBytes (dev : Nat → Nat) (off : Nat) (bytes : List Nat) : Nat → Nat :=
  fun i => if off ≤ i ∧ i < off + bytes.length then bytes.getD (i - off) 0 else dev i

namespace DiskDatabase

variable {K V : Type} [DecidableEq K]

/-- DiskDatabase::write (src/src/system/database.rs lines 245-262).
The bincode encoder of the value type V is the parameter enc, exactly as
the Rust function is generic in T: Encode; none means encode_to_vec
failed.  The mutated self is returned alongside the result, so failing
branches can still record partly written device bytes. -/
def write (enc : V → Option (List Nat)) (io : IOOutcome)
    (st : DiskState K V) (value : V) : Except DbErr DataInfo × DiskState K V :=
  match enc value with
  | none => (.error .invalidData, st)
  | some encoded =>
    let data_length := encoded.length
    let blocks_number := divCeil data_length st.block_size
    let padding_size := padding_to_multiple_block_size st.block_size data_length
    let padded := encoded ++ List.replicate padding_size 0
    if st.total_size ≤ st.used_blocks * st.block_size + data_length then
      (.error .outOfMemory, st)
    else
      match io with
      | .seekFail => (.error .ioError, st)
      | .writeFail n =>
        (.error .ioError,
          { st with
            device := writeBytes st.device (st.used_blocks * st.block_size) (padded.take n) })
      | .ok =>
        (.ok ⟨st.used_blocks, data_length⟩,
          { st with
            device := writeBytes st.device (st.used_blocks * st.block_size) padded,
            used_blocks := st.used_blocks + blocks_number })

/-- DiskDatabase::read (src/src/system/database.rs lines 264-272): a
positioned read of the padded length starting at the first byte of
start_block, decoded by the bincode decoder dec of the value type. -/
def read (dec : List Nat → Option V) (st : DiskState K V) (di : DataInfo) :
    Except DbErr V :=
  let padding_size := padding_to_multiple_block_size st.block_size di.data_length
  let buf := (List.range (di.data_length + padding_size)).map
    (fun i => st.device (di.start_block * st.block_size + i))
  match dec buf with
  | none => .error .invalidData
  | some v => .ok v

/-- Database::try_insert for DiskDatabase (src/src/system/database.rs
lines 280-287). -/
def try_insert (enc : V → Option (List Nat)) (io : IOOutcome)
    (st : DiskState K V) (k : K) (v : V) : Except DbErr Unit × DiskState K V :=
  if (lookupKV st.database_map k).isSome then (.ok (), st)
  else
    match write enc io st v with
    | (.ok di, st') => (.ok (), { st' with database_map := insertKV k di st'.database_map })
    | (.error e, st') => (.error e, st')

/-- Database::insert for DiskDatabase (src/src/system/database.rs
lines 289-293). -/
def insert (enc : V → Option (List Nat)) (io : IOOutcome)
    (st : DiskState K V) (k : K) (v : V) : Except DbErr Unit × DiskState K V :=
  match write enc io st v with
  | (.ok di, st') => (.ok (), { st' with database_map := insertKV k di st'.database_map })
  | (.error e, st') => (.error e, st')

/-- Database::get for DiskDatabase (src/src/system/database.rs
lines 295-298). -/
def get (dec : List Nat → Option V) (st : DiskState K V) (k : K) : Except DbErr V :=
  match lookupKV st.database_map k with
  | none => .error .notFound
  | some di => read dec st di

/-- Database::contains for DiskDatabase. -/
def contains (st : DiskState K V) (k : K) : Bool :=
  (lookupKV st.database_map k).isSome

/-- IterableDatabase::clear for DiskDatabase (src/src/system/database.rs
lines 337-341). -/
def clear (st : DiskState K V) : Except DbErr Unit × DiskState K V :=
  (.ok (), { st with database_map := [], used_blocks := 0 })

/-- DiskDatabase::init_on_regular_file (src/src/system/database.rs
lines 149-169): a fresh, truncated backing file of the requested size,
block size fixed at 512, empty map, used_blocks = 0. -/
def init_on_regular_file (total_size : Nat) : DiskState K V :=
  { device := fun _ => 0
    database_map := []
    total_size := total_size
    block_size := 512
    used_blocks := 0 }

/-- DiskDatabase::init (src/src/system/database.rs lines 171-200): the
device keeps its prior contents; total size and block size come from the
device ioctls, and a zero block size is rejected as InvalidData. -/
def init (dev0 : Nat → Nat) (total_size block_size : Nat) :
    Except DbErr (DiskState K V) :=
  if block_size = 0 then .error .invalidData
  else
    .ok
      { device := dev0
        database_map := []
        total_size := total_size
        block_size := block_size
        used_blocks := 0 }

end DiskDatabase

/-- Database::try_insert for the HashMap backend
(src/src/system/database.rs lines 75-78): entry(key).or_insert(value). -/
def hashMapTryInsert {K V : Type} [DecidableEq K] (m : List (K × V)) (k : K) (v : V) :
    Except DbErr Unit × List (K × V) :=
  if (lookupKV m k).isSome then (.ok (), m) else (.ok (), (k, v) :: m)

/-- States of a DiskDatabase reachable from a constructor by any
sequence of try_insert, insert and clear calls (get takes the state
immutably and cannot change it), with the environment free to pick the
I/O outcome of every write. -/
inductive Reachable {K V : Type} [DecidableEq K] (enc : V → Option (List Nat)) :
    DiskState K V → Prop where
  | regular_file (total_size : Nat) :
      Reachable enc (DiskDatabase.init_on_regular_file total_size)
  | block_device (dev0 : Nat → Nat) (total_size block_size : Nat) (st : DiskState K V)
      (h : DiskDatabase.init dev0 total_size block_size = .ok st) :
      Reachable enc st
  | step_try_insert (st : DiskState K V) (k : K) (v : V) (io : IOOutcome) :
      Reachable enc st → Reachable enc (DiskDatabase.try_insert enc io st k v).2
  | step_insert (st : DiskState K V) (k : K) (v : V) (io : IOOutcome) :
      Reachable enc st → Reachable enc (DiskDatabase.insert enc io st k v).2
  | step_clear (st : DiskState K V) :
      Reachable enc st → Reachable enc (DiskDatabase.clear st).2

/-- States reachable as in Reachable but without clear. -/
inductive ReachableNoClear {K V : Type} [DecidableEq K] (enc : V → Option (List Nat)) :
    DiskState K V → Prop where
  | regular_file (total_size : Nat) :
      ReachableNoClear enc (DiskDatabase.init_on_regular_file total_size)
  | block_device (dev0 : Nat → Nat) (total_size block_size : Nat) (st : DiskState K V)
      (h : DiskDatabase.init dev0 total_size block_size = .ok st) :
      ReachableNoClear enc st
  | step_try_insert (st : DiskState K V) (k : K) (v : V) (io : IOOutcome) :
      ReachableNoClear enc st → ReachableNoClear enc (DiskDatabase.try_insert enc io st k v).2
  | step_insert (st : DiskState K V) (k : K) (v : V) (io : IOOutcome) :
      ReachableNoClear enc st → ReachableNoClear enc (DiskDatabase.insert enc io st k v).2

/-- End block (exclusive) of the block range a DataInfo occupies:
start_block plus ceil(data_length / block_size) blocks. -/
def rangeEnd (block_size : Nat) (di : DataInfo) : Nat :=
  di.start_block + divCeil di.data_length block_size

/-- Two map entries occupy disjoint block ranges. -/
def disjointRange {K : Type} (block_size : Nat) (a b : K × DataInfo) : Prop :=
  rangeEnd block_size a.2 ≤ b.2.start_block ∨ rangeEnd block_size b.2 ≤ a.2.start_block

/-- Encoder used by concrete witnesses: a one-byte payload. -/
def encOne : Nat → Option (List Nat) := fun v => some [v]

/-- Decoder matching encOne: read back the first byte of the buffer
(bincode decoding consumes a prefix and ignores the padding). -/
def decHead : List Nat → Option Nat := fun l => l.head?

/-- Encoder producing a 599-byte payload, used to exhibit the capacity
corner case of an unaligned total_size. -/
def encBig : Nat → Option (List Nat) := fun v => some (List.replicate 599 v)

/-- Equality of io results is decidable when both components are. -/
instance {e a : Type} [DecidableEq e] [DecidableEq a] : DecidableEq (Except e a) := fun
  | .ok x, .ok y =>
    decidable_of_iff (x = y)
      (by constructor
          · intro h; rw [h]
          · intro h; cases h; rfl)
  | .ok _, .error _ => .isFalse (by intro h; cases h)
  | .error _, .ok _ => .isFalse (by intro h; cases h)
  | .error x, .error y =>
    decidable_of_iff (x = y)
      (by constructor
          · intro h; rw [h]
          · intro h; cases h; rfl)

/-- Concrete disk state with the key 5 already present, used by
witnesses for claims about already-present keys. -/
def stW : DiskState Nat Nat :=
  { device := fun _ => 0
    database_map := [(5, ⟨0, 1⟩)]
    total_size := 2048
    block_size := 512
    used_blocks := 1 }

/-- Concrete batches of spans used by the file-layer witness. -/
def c5Batches : List (List Span) := [[⟨5, 3⟩, ⟨6, 2⟩], [⟨7, 4⟩]]

/-- Concrete reachable state: one successful try_insert of a 599-byte
payload into a database over a regular file of 600 bytes. -/
def stC3 : DiskState Nat Nat :=
  (DiskDatabase.try_insert encBig .ok (DiskDatabase.init_on_regular_file 600) 0 0).2

/-- Concrete reachable state: one successful insert of a one-byte
payload into a database over a regular file of 2048 bytes. -/
def stC3W : DiskState Nat Nat :=
  (DiskDatabase.insert encOne .ok (DiskDatabase.init_on_regular_file 2048) 5 9).2

/-- Concrete reachable state with two stored keys. -/
def stD2 : DiskState Nat Nat :=
  (DiskDatabase.insert encOne .ok
    ((DiskDatabase.insert encOne .ok (DiskDatabase.init_on_regular_file 4096) 1 8).2) 2 7).2

/-- Size-bound invariant maintained by every DiskDatabase operation. -/
def SizeInv {K V : Type} (st : DiskState K V) : Prop :=
  0 < st.block_size ∧
  st.used_blocks * st.block_size < st.total_size + st.block_size

/-- Placement invariant: every stored range lies below the used_blocks
high-water mark and the stored ranges are pairwise disjoint. -/
def RangeInv {K V : Type} (st : DiskState K V) : Prop :=
  (∀ p ∈ st.database_map, rangeEnd st.block_size p.2 ≤ st.used_blocks) ∧
  st.database_map.Pairwise (disjointRange st.block_size)

/-!  Theorems.  -/

lemma chunkLoopF_isSome (cs len : Nat) (hcs : 0 < cs) :
    ∀ (fuel offset : Nat) (acc : List Chunk), len - offset < fuel →
      (chunkLoopF fuel cs len offset acc).isSome = true := by
  intro fuel
  induction fuel with
  | zero => intro offset acc h; omega
  | succ n ih =>
    intro offset acc h
    simp only [chunkLoopF]
    split
    · next ho => exact ih (offset + cs) _ (by omega)
    · simp

lemma chunkLoopF_mono : ∀ (fuel cs len offset : Nat) (acc r : List Chunk),
    chunkLoopF fuel cs len offset acc = some r →
    chunkLoopF (fuel + 1) cs len offset acc = some r := by
  intro fuel
  induction fuel with
  | zero => intro cs len offset acc r h; simp [chunkLoopF] at h
  | succ n ih =>
    intro cs len offset acc r h
    by_cases ho : offset < len
    · simp only [chunkLoopF, if_pos ho] at h ⊢
      exact ih cs len (offset + cs) _ r h
    · simpa only [chunkLoopF, if_neg ho] using h

lemma chunkLoopF_add (d : Nat) : ∀ {fuel cs len offset : Nat} {acc r : List Chunk},
    chunkLoopF fuel cs len offset acc = some r →
    chunkLoopF (fuel + d) cs len offset acc = some r := by
  induction d with
  | zero => intro fuel cs len offset acc r h; simpa using h
  | succ n ih =>
    intro fuel cs len offset acc r h
    have h2 := ih h
    have : fuel + (n + 1) = (fuel + n) + 1 := by omega
    rw [this]
    exact chunkLoopF_mono _ cs len offset acc r h2

lemma chunkLoopF_zero_size (len : Nat) :
    ∀ (fuel offset : Nat) (acc : List Chunk), offset < len →
      chunkLoopF fuel 0 len offset acc = none := by
  intro fuel
  induction fuel with
  | zero => intro offset acc _; rfl
  | succ n ih =>
    intro offset acc h
    simp only [chunkLoopF, if_pos h]
    simpa using ih offset _ h

/-- C10: the loop of FSChunker::chunk_data terminates on every input
when chunk_size is positive (some fixed fuel bound, one more than the
data length, suffices and the answer is independent of any larger fuel),
and the positivity precondition is necessary: with chunk_size = 0 and a
non-empty buffer no amount of fuel makes the loop finish. -/
theorem c10_chunker_termination :
    (∀ chunk_size dataLen : Nat, 0 < chunk_size →
      ∃ r : List Chunk, ∀ fuel : Nat, dataLen < fuel →
        chunkLoopF fuel chunk_size dataLen 0 [] = some r) ∧
    (∀ dataLen : Nat, 0 < dataLen → ∀ fuel : Nat,
      chunkLoopF fuel 0 dataLen 0 [] = none) := by
  constructor
  · intro cs len hcs
    have h1 : (chunkLoopF (len + 1) cs len 0 []).isSome = true :=
      chunkLoopF_isSome cs len hcs (len + 1) 0 [] (by omega)
    obtain ⟨r, hr⟩ := Option.isSome_iff_exists.mp h1
    refine ⟨r, fun fuel hf => ?_⟩
    have he : fuel = (len + 1) + (fuel - (len + 1)) := by omega
    rw [he]
    exact chunkLoopF_add _ hr
  · intro len hlen fuel
    exact chunkLoopF_zero_size len fuel 0 [] hlen

/-- C10 witness: with chunk_size = 2 on 3 bytes the loop finishes and
the result is fuel-independent, while with chunk_size = 0 it diverges. -/
theorem c10_chunker_termination_witness :
    chunkLoopF 4 2 3 0 [] = chunkLoopF 9 2 3 0 [] ∧
    chunkLoopF 7 0 3 0 [] = none := by
  obtain ⟨r, hr⟩ := c10_chunker_termination.1 2 3 (by decide)
  exact ⟨(hr 4 (by decide)).trans (hr 9 (by decide)).symm,
    c10_chunker_termination.2 3 (by decide) 7⟩

/-- C7: contrary to the tail-withholding contract, FSChunker::chunk_data
has no end-of-stream signal and emits the trailing incomplete bytes as a
short chunk during an ordinary write: with chunk_size = 2 and a 3-byte
buffer it returns the short final chunk (2, 1) of length 1 < 2. -/
theorem c7_short_tail_emitted :
    FSChunker.chunk_data 2 3 [] = [⟨0, 2⟩, ⟨2, 1⟩] := by decide

/-- C4: FileLayer::read accumulates differences of span offsets, which
omits the length of the last span read.  On a file holding one span at
offset 0 (of any positive length), a read from offset 0 returns the
hash of that span yet advances the handle offset by 0 bytes, so the
identical repeated read returns the same hash again instead of an empty
list at end of file, contradicting the claimed semantics. -/
theorem c4_read_under_advances :
    FileLayer.read [("a", [⟨7, 0⟩])] ⟨"a", 0⟩ = some ([7], ⟨"a", 0⟩) ∧
    FileLayer.read [("a", [⟨7, 0⟩])] ⟨"a", 0⟩ ≠ some ([], ⟨"a", 0⟩) := by decide

lemma sumLens_cons (s : Span) (l : List Span) :
    sumLens (s :: l) = s.length + sumLens l := by
  simp [sumLens]

lemma sumLens_append (l1 l2 : List Span) :
    sumLens (l1 ++ l2) = sumLens l1 + sumLens l2 := by
  simp [sumLens]

lemma spansFrom_append (l1 l2 : List Span) : ∀ off : Nat,
    spansFrom off (l1 ++ l2) = spansFrom off l1 ++ spansFrom (off + sumLens l1) l2 := by
  induction l1 with
  | nil => intro off; simp [spansFrom, sumLens]
  | cons s rest ih =>
    intro off
    rw [List.cons_append, spansFrom, spansFrom, sumLens_cons, ih (off + s.length),
      List.cons_append, Nat.add_assoc]

lemma spansFrom_length (l : List Span) : ∀ off : Nat,
    (spansFrom off l).length = l.length := by
  induction l with
  | nil => intro off; rfl
  | cons s rest ih => intro off; simp [spansFrom, ih]

lemma spansFrom_getD (l : List Span) : ∀ (off i : Nat), i < l.length →
    ((spansFrom off l).getD i ⟨0, 0⟩).offset = off + sumLens (l.take i) := by
  induction l with
  | nil => intro off i h; simp at h
  | cons s rest ih =>
    intro off i h
    cases i with
    | zero => simp [spansFrom, sumLens]
    | succ j =>
      have hj : j < rest.length := by simpa using h
      simp only [spansFrom, List.getD_cons_succ, List.take_succ_cons, sumLens_cons]
      rw [ih (off + s.length) j hj]
      omega

lemma writeSpansLoop_spec (spans : List Span) : ∀ (fs : List FileSpan) (off : Nat),
    (writeSpansLoop fs off spans).1 = fs ++ spansFrom off spans ∧
    (writeSpansLoop fs off spans).2 = off + sumLens spans := by
  induction spans with
  | nil => intro fs off; simp [writeSpansLoop, spansFrom, sumLens]
  | cons s rest ih =>
    intro fs off
    obtain ⟨h1, h2⟩ := ih (fs ++ [⟨s.hash, off⟩]) (off + s.length)
    constructor
    · rw [writeSpansLoop, h1, spansFrom, List.append_assoc]
      rfl
    · rw [writeSpansLoop, h2, sumLens_cons]
      omega

lemma lookupKV_insertKV_self {K A : Type} [DecidableEq K] (k : K) (a : A)
    (m : List (K × A)) : lookupKV (insertKV k a m) k = some a := by
  simp [insertKV, lookupKV]

lemma lookupKV_filter_ne {K A : Type} [DecidableEq K] (m : List (K × A))
    (k k' : K) (h : k ≠ k') :
    lookupKV (m.filter (fun p => decide (p.1 ≠ k))) k' = lookupKV m k' := by
  induction m with
  | nil => rfl
  | cons p rest ih =>
    rw [List.filter_cons]
    by_cases hp : p.1 = k
    · have hp' : ¬ p.1 = k' := by rw [hp]; exact h
      have hd : decide (p.1 ≠ k) = false := by simp [hp]
      rw [hd]
      simp only [Bool.false_eq_true, if_false]
      rw [ih, lookupKV, if_neg hp']
    · have hd : decide (p.1 ≠ k) = true := by simpa using hp
      rw [hd]
      simp only [if_true]
      rw [lookupKV, lookupKV]
      by_cases hk' : p.1 = k'
      · rw [if_pos hk', if_pos hk']
      · rw [if_neg hk', if_neg hk']
        exact ih

lemma lookupKV_insertKV_ne {K A : Type} [DecidableEq K] (k k' : K) (a : A)
    (m : List (K × A)) (h : k ≠ k') :
    lookupKV (insertKV k a m) k' = lookupKV m k' := by
  rw [insertKV, lookupKV, if_neg h]
  exact lookupKV_filter_ne m k k' h

lemma writeSeq_ok (batches : List (List Span)) :
    ∀ (fl : FileLayer) (name : String) (fsAcc : List FileSpan) (off : Nat),
      lookupKV fl name = some fsAcc →
      ∃ fl', FileLayer.writeSeq fl ⟨name, off⟩ batches =
          some (fl', ⟨name, off + sumLens batches.flatten⟩) ∧
        lookupKV fl' name = some (fsAcc ++ spansFrom off batches.flatten) := by
  induction batches with
  | nil =>
    intro fl name fsAcc off hl
    refine ⟨fl, ?_, ?_⟩
    · simp [FileLayer.writeSeq, sumLens]
    · simpa [spansFrom] using hl
  | cons batch rest ih =>
    intro fl name fsAcc off hl
    have hw : FileLayer.write fl ⟨name, off⟩ batch =
        some (insertKV name (fsAcc ++ spansFrom off batch) fl, ⟨name, off + sumLens batch⟩) := by
      rw [FileLayer.write]
      simp only [hl]
      rw [(writeSpansLoop_spec batch fsAcc off).1, (writeSpansLoop_spec batch fsAcc off).2]
    obtain ⟨fl', h1, h2⟩ := ih (insertKV name (fsAcc ++ spansFrom off batch) fl) name
      (fsAcc ++ spansFrom off batch) (off + sumLens batch)
      (lookupKV_insertKV_self name _ fl)
    refine ⟨fl', ?_, ?_⟩
    · rw [FileLayer.writeSeq]
      simp only [hw]
      rw [h1, List.flatten_cons, sumLens_append, Nat.add_assoc]
    · rw [h2, List.flatten_cons, spansFrom_append, List.append_assoc]

/-- C5: through a handle obtained from FileLayer::create, any sequence
of FileLayer::write calls succeeds, leaves the handle offset equal to
the total length B of all spans written, and records in each appended
FileSpan the sum of the lengths of all spans appended before it, so the
span offsets are non-decreasing and tile the file exactly. -/
theorem c5_write_offset_invariant (fl0 : FileLayer) (name : String)
    (h0 : FileHandle) (fl1 : FileLayer) (batches : List (List Span))
    (hc : FileLayer.create fl0 name = .ok (h0, fl1)) :
    (FileLayer.writeSeq fl1 h0 batches).isSome = true ∧
    ∀ fl' h', FileLayer.writeSeq fl1 h0 batches = some (fl', h') →
      h'.offset = sumLens batches.flatten ∧
      ∀ fs, lookupKV fl' name = some fs →
        fs.length = batches.flatten.length ∧
        ∀ i, i < fs.length → (fs.getD i ⟨0, 0⟩).offset = sumLens (batches.flatten.take i) := by
  rw [FileLayer.create] at hc
  split at hc
  · cases hc
  · rw [Except.ok.injEq, Prod.mk.injEq] at hc
    obtain ⟨hh0, hfl1⟩ := hc
    subst hh0 hfl1
    obtain ⟨fl', hseq, hlook⟩ :=
      writeSeq_ok batches (insertKV name [] fl0) name [] 0
        (lookupKV_insertKV_self name [] fl0)
    constructor
    · rw [hseq]; rfl
    · intro flr hr heq
      rw [hseq] at heq
      rw [Option.some.injEq, Prod.mk.injEq] at heq
      obtain ⟨hfl, hhr⟩ := heq
      subst hfl
      constructor
      · rw [← hhr]
        simp
      · intro fs hfs
        rw [hlook] at hfs
        rw [Option.some.injEq] at hfs
        subst hfs
        constructor
        · simp [spansFrom_length]
        · intro i hi
          have hi' : i < batches.flatten.length := by
            rw [← spansFrom_length batches.flatten 0]
            simpa using hi
          simpa using spansFrom_getD batches.flatten 0 i hi'

/-- C5 witness: a concrete create followed by two write batches of
total length 9 leaves the handle at offset 9. -/
theorem c5_write_offset_invariant_witness :
    (FileLayer.writeSeq [("f", [])] (⟨"f", 0⟩ : FileHandle) c5Batches).isSome = true ∧
    FileHandle.offset ⟨"f", 9⟩ = sumLens c5Batches.flatten := by
  have h := c5_write_offset_invariant [] "f" ⟨"f", 0⟩ [("f", [])] c5Batches (by decide)
  exact ⟨h.1, (h.2 [("f", [⟨5, 0⟩, ⟨6, 3⟩, ⟨7, 5⟩])] ⟨"f", 9⟩ (by decide)).1⟩

lemma divCeil_mul_le (a b : Nat) : divCeil a b * b ≤ a + b - 1 :=
  Nat.div_mul_le_self (a + b - 1) b

lemma range_map_writeBytes (dev : Nat → Nat) (off : Nat) (bytes : List Nat)
    (n : Nat) (hn : n = bytes.length) :
    (List.range n).map (fun i => writeBytes dev off bytes (off + i)) = bytes := by
  subst hn
  apply List.ext_getElem
  · simp
  · intro i h1 h2
    simp only [List.getElem_map, List.getElem_range]
    have hi : i < bytes.length := h2
    simp only [writeBytes]
    rw [if_pos ⟨Nat.le_add_right off i, by omega⟩, Nat.add_sub_cancel_left]
    exact List.getD_eq_getElem bytes 0 hi

lemma write_cases {K V : Type} [DecidableEq K] (enc : V → Option (List Nat))
    (io : IOOutcome) (st : DiskState K V) (v : V) :
    ((DiskDatabase.write enc io st v).2.used_blocks = st.used_blocks ∧
     (DiskDatabase.write enc io st v).2.database_map = st.database_map ∧
     ∃ err, (DiskDatabase.write enc io st v).1 = .error err) ∨
    (∃ e, enc v = some e ∧ io = .ok ∧
      st.used_blocks * st.block_size + e.length < st.total_size ∧
      (DiskDatabase.write enc io st v).1 = .ok ⟨st.used_blocks, e.length⟩ ∧
      (DiskDatabase.write enc io st v).2 =
        { st with
          device := writeBytes st.device (st.used_blocks * st.block_size)
            (e ++ List.replicate (padding_to_multiple_block_size st.block_size e.length) 0)
          used_blocks := st.used_blocks + divCeil e.length st.block_size }) := by
  cases he : enc v with
  | none =>
    left
    refine ⟨?_, ?_, .invalidData, ?_⟩ <;> simp [DiskDatabase.write, he]
  | some e =>
    by_cases hcap : st.total_size ≤ st.used_blocks * st.block_size + e.length
    · left
      refine ⟨?_, ?_, .outOfMemory, ?_⟩ <;> simp [DiskDatabase.write, he, hcap]
    · cases io with
      | ok =>
        right
        refine ⟨e, rfl, rfl, by omega, ?_, ?_⟩ <;>
          simp [DiskDatabase.write, he, hcap]
      | seekFail =>
        left
        refine ⟨?_, ?_, .ioError, ?_⟩ <;> simp [DiskDatabase.write, he, hcap]
      | writeFail n =>
        left
        refine ⟨?_, ?_, .ioError, ?_⟩ <;> simp [DiskDatabase.write, he, hcap]

lemma write_config {K V : Type} [DecidableEq K] (enc : V → Option (List Nat))
    (io : IOOutcome) (st : DiskState K V) (v : V) :
    (DiskDatabase.write enc io st v).2.block_size = st.block_size ∧
    (DiskDatabase.write enc io st v).2.total_size = st.total_size := by
  cases he : enc v with
  | none => simp [DiskDatabase.write, he]
  | some e =>
    by_cases hcap : st.total_size ≤ st.used_blocks * st.block_size + e.length
    · simp [DiskDatabase.write, he, hcap]
    · cases io <;> simp [DiskDatabase.write, he, hcap]

lemma write_SizeInv {K V : Type} [DecidableEq K] (enc : V → Option (List Nat))
    (io : IOOutcome) (st : DiskState K V) (v : V) (h : SizeInv st) :
    SizeInv (DiskDatabase.write enc io st v).2 := by
  obtain ⟨hbs, hlt⟩ := h
  obtain ⟨hcfg1, hcfg2⟩ := write_config enc io st v
  rcases write_cases enc io st v with ⟨hu, _, _⟩ | ⟨e, _, _, hcap, _, hst⟩
  · exact ⟨by rw [hcfg1]; exact hbs, by rw [hcfg1, hcfg2, hu]; exact hlt⟩
  · rw [hst]
    refine ⟨hbs, ?_⟩
    have hd := divCeil_mul_le e.length st.block_size
    have hmul : (st.used_blocks + divCeil e.length st.block_size) * st.block_size =
        st.used_blocks * st.block_size + divCeil e.length st.block_size * st.block_size :=
      Nat.add_mul _ _ _
    simp only []
    omega

lemma try_insert_SizeInv {K V : Type} [DecidableEq K] (enc : V → Option (List Nat))
    (io : IOOutcome) (st : DiskState K V) (k : K) (v : V) (h : SizeInv st) :
    SizeInv (DiskDatabase.try_insert enc io st k v).2 := by
  rw [DiskDatabase.try_insert]
  split
  · exact h
  · have hs := write_SizeInv enc io st v h
    rcases hw : DiskDatabase.write enc io st v with ⟨r, st'⟩
    rw [hw] at hs
    cases r with
    | ok di => exact ⟨hs.1, hs.2⟩
    | error err => exact hs

lemma insert_SizeInv {K V : Type} [DecidableEq K] (enc : V → Option (List Nat))
    (io : IOOutcome) (st : DiskState K V) (k : K) (v : V) (h : SizeInv st) :
    SizeInv (DiskDatabase.insert enc io st k v).2 := by
  rw [DiskDatabase.insert]
  have hs := write_SizeInv enc io st v h
  rcases hw : DiskDatabase.write enc io st v with ⟨r, st'⟩
  rw [hw] at hs
  cases r with
  | ok di => exact ⟨hs.1, hs.2⟩
  | error err => exact hs

lemma reachable_SizeInv {K V : Type} [DecidableEq K] (enc : V → Option (List Nat))
    (st : DiskState K V) (h : Reachable enc st) : SizeInv st := by
  induction h with
  | regular_file total =>
    refine ⟨?_, ?_⟩ <;> simp [DiskDatabase.init_on_regular_file, SizeInv]
  | block_device dev0 total bs st hinit =>
    rw [DiskDatabase.init] at hinit
    split at hinit
    · cases hinit
    · next hbs =>
      rw [Except.ok.injEq] at hinit
      subst hinit
      constructor
      · simpa using Nat.pos_of_ne_zero hbs
      · simp
        omega
  | step_try_insert st k v io hr ih => exact try_insert_SizeInv enc io st k v ih
  | step_insert st k v io hr ih => exact insert_SizeInv enc io st k v ih
  | step_clear st hr ih =>
    have hbs := ih.1
    exact ⟨hbs, by simp [DiskDatabase.clear]; omega⟩

/-- C3 counterexample: the invariant used_blocks * block_size ≤
total_size fails on a reachable state.  From a fresh regular-file
database of total_size = 600 bytes (block size 512), one try_insert of
a value with encoded length 599 passes the capacity check (599 < 600)
yet allocates ceil(599/512) = 2 blocks, leaving used_blocks *
block_size = 1024 > 600. -/
theorem c3_counterexample :
    Reachable encBig stC3 ∧ stC3.total_size < stC3.used_blocks * stC3.block_size :=
  ⟨Reachable.step_try_insert _ 0 0 .ok (Reachable.regular_file 600), by decide⟩

/-- C3 amended: on every state reachable from a constructor by any
sequence of try_insert, insert, get and clear operations, used_blocks *
block_size < total_size + block_size, i.e. used_blocks never exceeds
ceil(total_size / block_size); the stricter bound used_blocks *
block_size ≤ total_size of the original claim can fail by up to
block_size - 1 bytes because the capacity check compares the unpadded
encoded length. -/
theorem c3_used_blocks_bound {K V : Type} [DecidableEq K]
    (enc : V → Option (List Nat)) (st : DiskState K V) (h : Reachable enc st) :
    st.used_blocks * st.block_size < st.total_size + st.block_size :=
  (reachable_SizeInv enc st h).2

/-- C3 witness: the amended bound evaluated on a concrete reachable
state holding one stored value. -/
theorem c3_used_blocks_bound_witness :
    stC3W.used_blocks * stC3W.block_size < stC3W.total_size + stC3W.block_size :=
  c3_used_blocks_bound encOne stC3W
    (Reachable.step_insert _ 5 9 .ok (Reachable.regular_file 2048))

/-- C2 counterexample: the capacity check of DiskDatabase::write is
inclusive, not strict.  On a fresh database with total_size = 1 and a
value of encoded length 1, used_blocks * block_size + encoded_length =
1 does not exceed total_size, yet the insert fails with OutOfMemory. -/
theorem c2_capacity_counterexample :
    (DiskDatabase.insert encOne .ok (DiskDatabase.init_on_regular_file 1
        : DiskState Nat Nat) 5 9).1 = .error .outOfMemory ∧
    ¬ ((DiskDatabase.init_on_regular_file 1 : DiskState Nat Nat).used_blocks *
        (DiskDatabase.init_on_regular_file 1 : DiskState Nat Nat).block_size +
        ((encOne 9).getD []).length >
        (DiskDatabase.init_on_regular_file 1 : DiskState Nat Nat).total_size) := by
  decide

/-- C2 amended: an insert into DiskDatabase fails with OutOfMemory
exactly when used_blocks * block_size + encoded_length ≥ total_size
(the comparison is inclusive), and whenever used_blocks * block_size +
encoded_length < total_size and the device I/O succeeds the write
proceeds. -/
theorem c2_capacity_condition {K V : Type} [DecidableEq K]
    (enc : V → Option (List Nat)) (io : IOOutcome) (st : DiskState K V)
    (k : K) (v : V) (e : List Nat) (henc : enc v = some e) :
    ((DiskDatabase.insert enc io st k v).1 = .error .outOfMemory ↔
      st.total_size ≤ st.used_blocks * st.block_size + e.length) ∧
    (st.used_blocks * st.block_size + e.length < st.total_size → io = .ok →
      (DiskDatabase.insert enc io st k v).1 = .ok ()) := by
  by_cases hcap : st.total_size ≤ st.used_blocks * st.block_size + e.length
  · constructor
    · simp [DiskDatabase.insert, DiskDatabase.write, henc, hcap]
    · intro hlt _
      omega
  · constructor
    · cases io <;> simp [DiskDatabase.insert, DiskDatabase.write, henc, hcap]
    · intro _ hio
      subst hio
      simp [DiskDatabase.insert, DiskDatabase.write, henc, hcap]

/-- C2 witness: on a fresh database of 2048 bytes, inserting a
one-byte value does not report OutOfMemory and succeeds. -/
theorem c2_capacity_condition_witness :
    ¬ (DiskDatabase.insert encOne .ok (DiskDatabase.init_on_regular_file 2048
        : DiskState Nat Nat) 5 9).1 = .error .outOfMemory ∧
    (DiskDatabase.insert encOne .ok (DiskDatabase.init_on_regular_file 2048
        : DiskState Nat Nat) 5 9).1 = .ok () := by
  have h := c2_capacity_condition encOne .ok
    (DiskDatabase.init_on_regular_file 2048 : DiskState Nat Nat) 5 9 [9] rfl
  constructor
  · intro hc
    have := h.1.mp hc
    revert this
    decide
  · exact h.2 (by decide) rfl

/-- C6: try_insert on an already-present key returns success and leaves
the whole database state unchanged, both for the HashMap backend and
for DiskDatabase. -/
theorem c6_try_insert_idempotent {K V W : Type} [DecidableEq K]
    (m : List (K × V)) (k : K) (v : V)
    (hm : (lookupKV m k).isSome = true)
    (enc : W → Option (List Nat)) (io : IOOutcome)
    (st : DiskState K W) (kd : K) (w : W)
    (hd : (lookupKV st.database_map kd).isSome = true) :
    hashMapTryInsert m k v = (.ok (), m) ∧
    DiskDatabase.try_insert enc io st kd w = (.ok (), st) := by
  constructor
  · rw [hashMapTryInsert, if_pos hm]
  · rw [DiskDatabase.try_insert, if_pos hd]

/-- C6 witness: a second try_insert of different bytes under a present
key leaves both stores exactly as they were. -/
theorem c6_try_insert_idempotent_witness :
    hashMapTryInsert [(3, 10)] 3 77 = (.ok (), [(3, 10)]) ∧
    DiskDatabase.try_insert encOne .seekFail stW 5 9 = (.ok (), stW) :=
  c6_try_insert_idempotent [(3, 10)] 3 77 (by decide) encOne .seekFail stW 5 9 (by decide)

/-- C8: whenever try_insert or insert on DiskDatabase returns an error
of any kind (encode failure, capacity exhausted, or an I/O error during
the seek or the write), used_blocks is unchanged and the in-memory
hash-to-DataInfo map is unchanged, so the observable database state is
exactly what it was before the call. -/
theorem c8_failed_write_atomic {K V : Type} [DecidableEq K]
    (enc : V → Option (List Nat)) (io : IOOutcome) (st : DiskState K V)
    (k : K) (v : V) (err : DbErr) :
    ((DiskDatabase.try_insert enc io st k v).1 = .error err →
      (DiskDatabase.try_insert enc io st k v).2.used_blocks = st.used_blocks ∧
      (DiskDatabase.try_insert enc io st k v).2.database_map = st.database_map) ∧
    ((DiskDatabase.insert enc io st k v).1 = .error err →
      (DiskDatabase.insert enc io st k v).2.used_blocks = st.used_blocks ∧
      (DiskDatabase.insert enc io st k v).2.database_map = st.database_map) := by
  have hc := write_cases enc io st v
  rcases hw : DiskDatabase.write enc io st v with ⟨r, st'⟩
  rw [hw] at hc
  constructor
  · intro herr
    rw [DiskDatabase.try_insert] at herr ⊢
    split at herr
    · cases herr
    · next hk =>
      rw [if_neg hk, hw]
      rw [hw] at herr
      cases r with
      | ok di => cases herr
      | error e2 =>
        rcases hc with ⟨hu, hm, _⟩ | ⟨e3, _, _, _, hok, _⟩
        · exact ⟨hu, hm⟩
        · cases hok
  · intro herr
    rw [DiskDatabase.insert] at herr ⊢
    rw [hw] at herr ⊢
    cases r with
    | ok di => cases herr
    | error e2 =>
      rcases hc with ⟨hu, hm, _⟩ | ⟨e3, _, _, _, hok, _⟩
      · exact ⟨hu, hm⟩
      · cases hok

/-- C8 witness: a seek failure during insert and during try_insert on a
fresh database leaves used_blocks and the map unchanged. -/
theorem c8_failed_write_atomic_witness :
    ((DiskDatabase.try_insert encOne .seekFail (DiskDatabase.init_on_regular_file 2048
        : DiskState Nat Nat) 5 9).2.used_blocks =
      (DiskDatabase.init_on_regular_file 2048 : DiskState Nat Nat).used_blocks ∧
     (DiskDatabase.try_insert encOne .seekFail (DiskDatabase.init_on_regular_file 2048
        : DiskState Nat Nat) 5 9).2.database_map =
      (DiskDatabase.init_on_regular_file 2048 : DiskState Nat Nat).database_map) ∧
    ((DiskDatabase.insert encOne .seekFail (DiskDatabase.init_on_regular_file 2048
        : DiskState Nat Nat) 5 9).2.used_blocks =
      (DiskDatabase.init_on_regular_file 2048 : DiskState Nat Nat).used_blocks ∧
     (DiskDatabase.insert encOne .seekFail (DiskDatabase.init_on_regular_file 2048
        : DiskState Nat Nat) 5 9).2.database_map =
      (DiskDatabase.init_on_regular_file 2048 : DiskState Nat Nat).database_map) := by
  have h := c8_failed_write_atomic encOne .seekFail
    (DiskDatabase.init_on_regular_file 2048 : DiskState Nat Nat) 5 9 .ioError
  exact ⟨h.1 (by decide), h.2 (by decide)⟩

lemma insert_state_get {K V : Type} [DecidableEq K]
    (enc : V → Option (List Nat)) (dec : List Nat → Option V) (io : IOOutcome)
    (st : DiskState K V) (k : K) (v : V) (e : List Nat)
    (henc : enc v = some e) (hdec : ∀ rest : List Nat, dec (e ++ rest) = some v)
    (di : DataInfo) (st' : DiskState K V)
    (hw : DiskDatabase.write enc io st v = (.ok di, st')) :
    DiskDatabase.get dec { st' with database_map := insertKV k di st'.database_map } k
      = .ok v := by
  have hc := write_cases enc io st v
  rw [hw] at hc
  rcases hc with ⟨_, _, err, herr⟩ | ⟨e2, he2, hio, hcap, hok, hst⟩
  · simp at herr
  · rw [henc] at he2
    injection he2 with he2'
    subst he2'
    have hdi : di = ⟨st.used_blocks, e.length⟩ := by simpa using hok
    have hst2 : st' =
        { st with
          device := writeBytes st.device (st.used_blocks * st.block_size)
            (e ++ List.replicate (padding_to_multiple_block_size st.block_size e.length) 0)
          used_blocks := st.used_blocks + divCeil e.length st.block_size } := by
      simpa using hst
    subst hdi
    subst hst2
    simp only [DiskDatabase.get, DiskDatabase.read, lookupKV_insertKV_self]
    rw [range_map_writeBytes st.device (st.used_blocks * st.block_size)
      (e ++ List.replicate (padding_to_multiple_block_size st.block_size e.length) 0)
      (e.length + padding_to_multiple_block_size st.block_size e.length)
      (by simp)]
    rw [hdec (List.replicate (padding_to_multiple_block_size st.block_size e.length) 0)]

/-- C1: if insert (or try_insert on an absent key) succeeds for a value
whose bincode encoding e satisfies the bincode round-trip property and
whose encoded length together with all previously stored data fits in
total_size, then a subsequent get of the same key returns exactly the
inserted value. -/
theorem c1_disk_roundtrip {K V : Type} [DecidableEq K]
    (enc : V → Option (List Nat)) (dec : List Nat → Option V) (io : IOOutcome)
    (st : DiskState K V) (k : K) (v : V) (e : List Nat)
    (henc : enc v = some e)
    (hdec : ∀ rest : List Nat, dec (e ++ rest) = some v)
    (hpre : st.used_blocks * st.block_size + e.length ≤ st.total_size) :
    ((DiskDatabase.insert enc io st k v).1 = .ok () →
      DiskDatabase.get dec (DiskDatabase.insert enc io st k v).2 k = .ok v) ∧
    (DiskDatabase.contains st k = false →
      (DiskDatabase.try_insert enc io st k v).1 = .ok () →
      DiskDatabase.get dec (DiskDatabase.try_insert enc io st k v).2 k = .ok v) := by
  constructor
  · intro hsucc
    rcases hw : DiskDatabase.write enc io st v with ⟨r, st'⟩
    rw [DiskDatabase.insert, hw] at hsucc ⊢
    cases r with
    | error err => simp at hsucc
    | ok di => exact insert_state_get enc dec io st k v e henc hdec di st' hw
  · intro hcon hsucc
    rw [DiskDatabase.contains] at hcon
    rcases hw : DiskDatabase.write enc io st v with ⟨r, st'⟩
    rw [DiskDatabase.try_insert, if_neg (by simp [hcon]), hw] at hsucc ⊢
    cases r with
    | error err => simp at hsucc
    | ok di => exact insert_state_get enc dec io st k v e henc hdec di st' hw

/-- C1 witness: inserting the one-byte value 9 under key 5 into a fresh
2048-byte database and reading it back returns 9, through insert and
through try_insert. -/
theorem c1_disk_roundtrip_witness :
    DiskDatabase.get decHead
      (DiskDatabase.insert encOne .ok (DiskDatabase.init_on_regular_file 2048
        : DiskState Nat Nat) 5 9).2 5 = .ok 9 ∧
    DiskDatabase.get decHead
      (DiskDatabase.try_insert encOne .ok (DiskDatabase.init_on_regular_file 2048
        : DiskState Nat Nat) 5 9).2 5 = .ok 9 := by
  have h := c1_disk_roundtrip encOne decHead .ok
    (DiskDatabase.init_on_regular_file 2048 : DiskState Nat Nat) 5 9 [9] rfl
    (fun _ => rfl) (by decide)
  exact ⟨h.1 (by decide), h.2 (by decide) (by decide)⟩

lemma disjointRange_symm {K : Type} (bs : Nat) :
    Symmetric (disjointRange (K := K) bs) :=
  fun _ _ h => h.symm

lemma lookupKV_mem {K A : Type} [DecidableEq K] (m : List (K × A)) (k : K) (a : A)
    (h : lookupKV m k = some a) : (k, a) ∈ m := by
  induction m with
  | nil => cases h
  | cons p rest ih =>
    rw [lookupKV] at h
    by_cases hp : p.1 = k
    · rw [if_pos hp] at h
      injection h with ha
      have hpa : p = (k, a) := Prod.ext hp ha
      rw [← hpa]
      exact List.mem_cons_self p rest
    · rw [if_neg hp] at h
      exact List.mem_cons_of_mem p (ih h)

lemma RangeInv_congr {K V : Type} (st st' : DiskState K V)
    (hbs : st'.block_size = st.block_size)
    (hmap : st'.database_map = st.database_map)
    (hused : st'.used_blocks = st.used_blocks)
    (h : RangeInv st) : RangeInv st' := by
  obtain ⟨h1, h2⟩ := h
  constructor
  · intro p hp
    rw [hbs, hused]
    exact h1 p (hmap ▸ hp)
  · rw [hmap, hbs]
    exact h2

lemma RangeInv_insert_step {K V : Type} [DecidableEq K]
    (st st' : DiskState K V) (k : K) (di : DataInfo)
    (hinv : RangeInv st)
    (hbs : st'.block_size = st.block_size)
    (hmap : st'.database_map = st.database_map)
    (hused : st'.used_blocks = st.used_blocks + divCeil di.data_length st.block_size)
    (hdi : di.start_block = st.used_blocks) :
    RangeInv ({ st' with database_map := insertKV k di st'.database_map }
      : DiskState K V) := by
  obtain ⟨h1, h2⟩ := hinv
  constructor
  · intro p hp
    simp only [insertKV, List.mem_cons, hmap] at hp
    rcases hp with rfl | hp
    · simp only [hbs, hused, rangeEnd, hdi]
      omega
    · have hp' := (List.mem_filter.mp hp).1
      have hle := h1 p hp'
      simp only [hbs, hused]
      omega
  · simp only [insertKV, hmap, hbs]
    rw [List.pairwise_cons]
    constructor
    · intro b hb
      have hb' := (List.mem_filter.mp hb).1
      have hle := h1 b hb'
      right
      rw [hdi]
      exact hle
    · exact List.Pairwise.sublist (List.filter_sublist _) h2

lemma reachableNC_RangeInv {K V : Type} [DecidableEq K]
    (enc : V → Option (List Nat)) (st : DiskState K V)
    (h : ReachableNoClear enc st) : RangeInv st := by
  induction h with
  | regular_file total =>
    constructor
    · intro p hp
      cases hp
    · exact List.Pairwise.nil
  | block_device dev0 total bs st hinit =>
    rw [DiskDatabase.init] at hinit
    split at hinit
    · cases hinit
    · rw [Except.ok.injEq] at hinit
      subst hinit
      constructor
      · intro p hp
        cases hp
      · exact List.Pairwise.nil
  | step_try_insert st k v io hr ih =>
    rw [DiskDatabase.try_insert]
    split
    · exact ih
    · have hc := write_cases enc io st v
      have hcfg := write_config enc io st v
      rcases hw : DiskDatabase.write enc io st v with ⟨r, st'⟩
      rw [hw] at hc hcfg
      cases r with
      | error err =>
        rcases hc with ⟨hu, hm, _⟩ | ⟨e, _, _, _, hok, _⟩
        · exact RangeInv_congr st st' hcfg.1 hm hu ih
        · cases hok
      | ok di =>
        rcases hc with ⟨_, _, err, herr⟩ | ⟨e, _, _, _, hok, hst⟩
        · cases herr
        · have hdi : di = ⟨st.used_blocks, e.length⟩ := by simpa using hok
          have hst2 : st' =
              { st with
                device := writeBytes st.device (st.used_blocks * st.block_size)
                  (e ++ List.replicate
                    (padding_to_multiple_block_size st.block_size e.length) 0)
                used_blocks := st.used_blocks + divCeil e.length st.block_size } := hst
          apply RangeInv_insert_step st st' k di ih hcfg.1
          · rw [hst2]
          · rw [hst2, hdi]
          · rw [hdi]
  | step_insert st k v io hr ih =>
    rw [DiskDatabase.insert]
    have hc := write_cases enc io st v
    have hcfg := write_config enc io st v
    rcases hw : DiskDatabase.write enc io st v with ⟨r, st'⟩
    rw [hw] at hc hcfg
    cases r with
    | error err =>
      rcases hc with ⟨hu, hm, _⟩ | ⟨e, _, _, _, hok, _⟩
      · exact RangeInv_congr st st' hcfg.1 hm hu ih
      · cases hok
    | ok di =>
      rcases hc with ⟨_, _, err, herr⟩ | ⟨e, _, _, _, hok, hst⟩
      · cases herr
      · have hdi : di = ⟨st.used_blocks, e.length⟩ := by simpa using hok
        have hst2 : st' =
            { st with
              device := writeBytes st.device (st.used_blocks * st.block_size)
                (e ++ List.replicate
                  (padding_to_multiple_block_size st.block_size e.length) 0)
              used_blocks := st.used_blocks + divCeil e.length st.block_size } := hst
        apply RangeInv_insert_step st st' k di ih hcfg.1
        · rw [hst2]
        · rw [hst2, hdi]
        · rw [hdi]

/-- C9: on every state reachable by try_insert and insert operations
(without clear), the block ranges [start_block, start_block +
ceil(data_length / block_size)) of any two distinct keys in the map are
disjoint, and every successful write places its payload at the current
used_blocks high-water mark, so no stored payload is ever overwritten. -/
theorem c9_disjoint_placement {K V : Type} [DecidableEq K]
    (enc : V → Option (List Nat)) (st : DiskState K V)
    (hst : ReachableNoClear enc st) :
    (∀ (k1 k2 : K) (di1 di2 : DataInfo), k1 ≠ k2 →
      lookupKV st.database_map k1 = some di1 →
      lookupKV st.database_map k2 = some di2 →
      rangeEnd st.block_size di1 ≤ di2.start_block ∨
      rangeEnd st.block_size di2 ≤ di1.start_block) ∧
    (∀ (io : IOOutcome) (v : V) (di : DataInfo) (st' : DiskState K V),
      DiskDatabase.write enc io st v = (.ok di, st') →
      di.start_block = st.used_blocks) := by
  constructor
  · intro k1 k2 di1 di2 hne h1 h2
    have hinv := reachableNC_RangeInv enc st hst
    have hm1 := lookupKV_mem _ _ _ h1
    have hm2 := lookupKV_mem _ _ _ h2
    have hp : ((k1, di1) : K × DataInfo) ≠ (k2, di2) := by
      intro hc
      exact hne (congrArg Prod.fst hc)
    exact hinv.2.forall (disjointRange_symm st.block_size) hm1 hm2 hp
  · intro io v di st' hw
    have hc := write_cases enc io st v
    rw [hw] at hc
    rcases hc with ⟨_, _, err, herr⟩ | ⟨e, _, _, _, hok, _⟩
    · cases herr
    · have hdi : di = ⟨st.used_blocks, e.length⟩ := by simpa using hok
      rw [hdi]

/-- C9 witness: after two successful one-byte inserts under the keys 1
and 2, the stored ranges [0,1) and [1,2) are disjoint. -/
theorem c9_disjoint_placement_witness :
    rangeEnd stD2.block_size ⟨0, 1⟩ ≤ (1 : Nat) ∨
    rangeEnd stD2.block_size ⟨1, 1⟩ ≤ (0 : Nat) := by
  have h := c9_disjoint_placement encOne stD2
    (ReachableNoClear.step_insert _ 2 7 .ok
      (ReachableNoClear.step_insert _ 1 8 .ok (ReachableNoClear.regular_file 4096)))
  have h2 := h.1 1 2 ⟨0, 1⟩ ⟨1, 1⟩ (by decide) (by decide) (by decide)
  simpa using h2

end ChunkFS
